import Mathlib

/-!
Verification of the mind_snag cross-recording neuron stitching pipeline.

Shallow embedding of the Python sources (mind_snag package) over exact
rational arithmetic. Conventions used throughout:

- a floating-point value is modelled as `Option ℚ`; `none` models IEEE NaN
  and `some q` a finite value (the sources never produce infinities
  themselves; negative infinity appears only through np.nan_to_num and is
  modelled by the bottom element of `WithBot ℚ`);
- numpy arrays are Lean lists; fallible lookups are `Option`; Python
  exceptions are `Except`;
- dictionary keys (event-field names, cluster-type selectors) are `String`
  where the code branches on them, and functions `String → Option _` model
  dictionaries;
- external numerical library routines that the repository only calls
  (np.corrcoef inside _pairwise_corr, scipy norm.pdf inside psth) are
  passed in as function parameters: every claim below is independent of
  their values.
-/

/-- A Python float: `none` is NaN, `some q` a finite value. -/
abbrev FVal := Option ℚ

/-- One element of np.nan_to_num(xs, nan=-np.inf): NaN becomes bottom,
finite values are unchanged. Source: stitch_neurons.py line 311. -/
def nanToNegInf : FVal → WithBot ℚ
  | none => ⊥
  | some q => (q : WithBot ℚ)

/-- np.argmax: index of the first occurrence of the maximum value.
The head wins unless a strictly larger element appears later. -/
def np_argmax : List (WithBot ℚ) → ℕ
  | [] => 0
  | x :: xs =>
    let i := np_argmax xs
    if x < xs.getD i ⊥ then i + 1 else 0

theorem np_argmax_lt_length : ∀ (l : List (WithBot ℚ)), l ≠ [] → np_argmax l < l.length
  | [], h => absurd rfl h
  | _ :: xs, _ => by
    simp only [np_argmax]
    split
    · rename_i hlt
      have hxs : xs ≠ [] := by
        rintro rfl
        simp at hlt
      have := np_argmax_lt_length xs hxs
      simpa using Nat.succ_lt_succ this
    · simp

theorem getD_le_np_argmax : ∀ (l : List (WithBot ℚ)) (j : ℕ), j < l.length →
    l.getD j ⊥ ≤ l.getD (np_argmax l) ⊥
  | [], j, h => by simp at h
  | x :: xs, 0, _ => by
    simp only [np_argmax]
    split
    · rename_i hlt
      simpa using le_of_lt hlt
    · simp
  | x :: xs, j + 1, h => by
    have hj : j < xs.length := by simpa using h
    have ih := getD_le_np_argmax xs j hj
    simp only [np_argmax]
    split
    · simpa using ih
    · rename_i hnlt
      push_neg at hnlt
      simpa using le_trans ih hnlt

/-- getD commutes with map at in-range indices. -/
theorem getD_map_of_lt {α β : Type} (f : α → β) (da : α) (db : β) :
    ∀ (l : List α) (j : ℕ), j < l.length → (l.map f).getD j db = f (l.getD j da)
  | [], j, h => by simp at h
  | x :: xs, 0, _ => by simp
  | x :: xs, j + 1, h => by
    have hj : j < xs.length := by simpa using h
    simpa using getD_map_of_lt f da db xs j hj

/-- Mapping positional lookup over the index range reproduces the list. -/
theorem range_map_getD {α : Type} (l : List α) (d : α) :
    (List.range l.length).map (fun i => l.getD i d) = l := by
  apply List.ext_getElem
  · simp
  · intro n h1 h2
    simp [List.getD, List.getElem?_eq_getElem h2]

/-- Python comparison wf >= thr on a possibly-NaN float: false on NaN.
Source: stitch_neurons.py line 314, second conjunct. -/
def wfPass (thr : ℚ) : FVal → Prop
  | none => False
  | some w => thr ≤ w

instance (thr : ℚ) (v : FVal) : Decidable (wfPass thr v) :=
  match v with
  | none => isFalse (fun h => h)
  | some w => inferInstanceAs (Decidable (thr ≤ w))

/-- Valid (non-NaN in both) pairs of two float vectors after truncating both
to the shorter length. Source: stitch_neurons.py lines 345-349
(min_len truncation and the valid mask). -/
def valid_pairs (a b : List FVal) : List (ℚ × ℚ) :=
  ((a.take (min a.length b.length)).zip (b.take (min a.length b.length))).filterMap
    (fun p => match p with
      | (some x, some y) => some (x, y)
      | _ => none)

/-- Embeds _pairwise_corr (stitch_neurons.py lines 341-352). The parameter
corrcoef models the external numpy routine np.corrcoef(a, b)[0, 1] applied
to the surviving valid samples; the guards around it are the code under
verification. Returns `none` (NaN) from the guard branches. -/
def pairwise_corr (corrcoef : List ℚ → List ℚ → FVal) (a b : List FVal) : FVal :=
  if min a.length b.length = 0 then none
  else
    let pairs := valid_pairs a b
    if pairs.length < 2 then none
    else corrcoef (pairs.map Prod.fst) (pairs.map Prod.snd)

/-- One slot decision of the stitching inner loop: given the firing-rate and
waveform correlations of the current unit against every candidate of one
other recording, and the candidate ids, produce the value recorded in that
slot of the stitch row (`none` keeps the slot missing). Source:
stitch_neurons.py lines 295-315: the empty-candidate continue, the
nan_to_num(-inf) conversion, np.argmax, and the double threshold test. -/
def stitch_slot (frThr wfThr : ℚ) (frCorrs wfCorrs : List FVal) (otherIds : List ℚ) : FVal :=
  if otherIds.length = 0 then none
  else
    let frB := frCorrs.map nanToNegInf
    let best := np_argmax frB
    if (frThr : WithBot ℚ) ≤ frB.getD best ⊥ ∧ wfPass wfThr (wfCorrs.getD best none) then
      some (otherIds.getD best 0)
    else none

/-- C1: in the stitching loop, the candidate chosen from another recording is
the one with the maximum firing-rate correlation (NaN treated as negative
infinity, hence never chosen over any real value), and its id is recorded in
the slot exactly when both its firing-rate correlation reaches
fr_corr_threshold and its waveform correlation reaches wf_corr_threshold;
otherwise the slot stays missing. -/
theorem C1_best_candidate_thresholded (frThr wfThr : ℚ) (frCorrs wfCorrs : List FVal)
    (ids : List ℚ) (hlen : frCorrs.length = ids.length) (hne : ids ≠ []) :
    (∀ j < frCorrs.length,
      (frCorrs.map nanToNegInf).getD j ⊥ ≤
        (frCorrs.map nanToNegInf).getD (np_argmax (frCorrs.map nanToNegInf)) ⊥) ∧
    (∀ j < frCorrs.length, frCorrs.getD j none ≠ none →
        frCorrs.getD (np_argmax (frCorrs.map nanToNegInf)) none ≠ none) ∧
    stitch_slot frThr wfThr frCorrs wfCorrs ids =
      (if (frThr : WithBot ℚ) ≤
            (frCorrs.map nanToNegInf).getD (np_argmax (frCorrs.map nanToNegInf)) ⊥ ∧
          wfPass wfThr (wfCorrs.getD (np_argmax (frCorrs.map nanToNegInf)) none)
        then some (ids.getD (np_argmax (frCorrs.map nanToNegInf)) 0) else none) := by
  have hfr_ne : frCorrs ≠ [] := by
    intro h
    apply hne
    rw [h] at hlen
    exact (List.length_eq_zero.mp hlen.symm)
  have hmap_ne : frCorrs.map nanToNegInf ≠ [] := by
    simpa using hfr_ne
  have hb : np_argmax (frCorrs.map nanToNegInf) < frCorrs.length := by
    have := np_argmax_lt_length (frCorrs.map nanToNegInf) hmap_ne
    simpa using this
  refine ⟨?_, ?_, ?_⟩
  · intro j hj
    exact getD_le_np_argmax (frCorrs.map nanToNegInf) j (by simpa using hj)
  · intro j hj hjval hbot
    have h1 := getD_le_np_argmax (frCorrs.map nanToNegInf) j (by simpa using hj)
    rw [getD_map_of_lt nanToNegInf none ⊥ frCorrs j hj,
        getD_map_of_lt nanToNegInf none ⊥ frCorrs _ hb, hbot] at h1
    rcases hval : frCorrs.getD j none with _ | q
    · exact hjval hval
    · rw [hval] at h1
      simp only [nanToNegInf] at h1
      exact absurd h1 (by simp)
  · have hlen0 : ¬ ids.length = 0 := by
      simpa using (List.length_pos.mpr hne).ne'
    simp only [stitch_slot, if_neg hlen0]

/-- C1 witness: concrete evaluation. With candidates at correlations
(NaN, 2) the second is chosen and, passing both thresholds of 1, its id 7
is recorded. -/
theorem C1_witness :
    stitch_slot 1 1 [none, some 2] [some 1, some 1] [4, 7] = some 7 := by
  have h := (C1_best_candidate_thresholded 1 1 [none, some 2]
    [some 1, some 1] [4, 7] rfl (by decide)).2.2
  rw [h]
  decide

/-- C4: the correlation matcher truncates both vectors to the shorter length
and drops positions where either value is NaN; with an empty input, or fewer
than 2 valid paired samples, the result is NaN (no error is possible: the
embedding is a total function); otherwise the external Pearson routine is
applied to exactly the valid pairs. -/
theorem C4_pairwise_corr_guards (corrcoef : List ℚ → List ℚ → FVal) (a b : List FVal) :
    (a = [] ∨ b = [] → pairwise_corr corrcoef a b = none) ∧
    ((valid_pairs a b).length < 2 → pairwise_corr corrcoef a b = none) ∧
    (2 ≤ (valid_pairs a b).length →
      pairwise_corr corrcoef a b =
        corrcoef ((valid_pairs a b).map Prod.fst) ((valid_pairs a b).map Prod.snd)) := by
  refine ⟨?_, ?_, ?_⟩
  · intro h
    have hmin : min a.length b.length = 0 := by
      rcases h with h | h <;> simp [h]
    simp [pairwise_corr, hmin]
  · intro h
    by_cases hmin : min a.length b.length = 0
    · simp [pairwise_corr, hmin]
    · simp [pairwise_corr, hmin, if_pos h]
  · intro h
    have hmin : ¬ min a.length b.length = 0 := by
      intro hmin
      have hz : valid_pairs a b = [] := by
        simp [valid_pairs, hmin]
      rw [hz] at h
      simp at h
    have hnot : ¬ (valid_pairs a b).length < 2 := by omega
    simp [pairwise_corr, hmin, if_neg hnot]

/-- C4 witness: concrete evaluations of both NaN branches and the pass-through
branch. -/
theorem C4_witness :
    pairwise_corr (fun _ _ => some 1) [] [some 1] = none ∧
    pairwise_corr (fun _ _ => some 1) [some 1, none] [some 2, some 3] = none ∧
    pairwise_corr (fun _ _ => some 1) [some 1, some 2] [some 2, some 3] = some 1 := by
  refine ⟨?_, ?_, ?_⟩
  · exact (C4_pairwise_corr_guards (fun _ _ => some 1) [] [some 1]).1 (Or.inl rfl)
  · exact (C4_pairwise_corr_guards (fun _ _ => some 1) [some 1, none]
      [some 2, some 3]).2.1 (by decide)
  · have h := (C4_pairwise_corr_guards (fun _ _ => some 1) [some 1, some 2]
      [some 2, some 3]).2.2 (by decide)
    rw [h]

/-- Dedup sentinel substitution (stitch_neurons.py line 326): a NaN entry of a
stitch row compares as 0. -/
def keyEntry : FVal → ℚ
  | none => 0
  | some q => q

/-- A stitch row with its NaN entries replaced by the sentinel 0; two rows are
collapsed by the dedup step exactly when their key rows are equal. -/
def keyRow (r : List FVal) : List ℚ := r.map keyEntry

/-- Indices kept by np.unique(dedup, axis=0, return_index=True) followed by
np.sort (stitch_neurons.py line 327-328): the ascending list of positions that
are the first occurrence of their key row. -/
def uniqueFirstIdx (keys : List (List ℚ)) : List ℕ :=
  (List.range keys.length).filter
    (fun i => decide (∀ j < i, keys.getD j [] ≠ keys.getD i []))

/-- The deduplicated stitch rows (stitch_neurons.py lines 324-328): original
rows indexed at the sorted first-occurrence indices of their sentinel keys. -/
def dedup_rows (rows : List (List FVal)) : List (List FVal) :=
  (uniqueFirstIdx (rows.map keyRow)).map (fun i => rows.getD i [])

theorem mem_uniqueFirstIdx {keys : List (List ℚ)} {i : ℕ} :
    i ∈ uniqueFirstIdx keys ↔
      i < keys.length ∧ ∀ j < i, keys.getD j [] ≠ keys.getD i [] := by
  simp [uniqueFirstIdx, List.mem_filter, List.mem_range]

/-- C2: deduplication keeps exactly one row per class of rows whose entries
agree after replacing NaN by the sentinel 0; the kept row is the first
occurrence in emission order, and survivors keep their original relative
order (the output is a sublist of the input). -/
theorem C2_dedup_first_occurrence (rows : List (List FVal)) :
    (dedup_rows rows).Sublist rows ∧
    ((dedup_rows rows).map keyRow).Nodup ∧
    (∀ r ∈ rows, ∃ s ∈ dedup_rows rows, keyRow s = keyRow r) ∧
    (∀ i, i < rows.length →
      (∀ j < i, keyRow (rows.getD j []) ≠ keyRow (rows.getD i [])) →
      rows.getD i [] ∈ dedup_rows rows) ∧
    (∀ s ∈ dedup_rows rows, ∃ i, i < rows.length ∧ rows.getD i [] = s ∧
      ∀ j < i, keyRow (rows.getD j []) ≠ keyRow s) := by
  have hkl : (rows.map keyRow).length = rows.length := by simp
  have hkey : ∀ i, i < rows.length →
      (rows.map keyRow).getD i [] = keyRow (rows.getD i []) := by
    intro i hi
    exact getD_map_of_lt keyRow [] [] rows i hi
  refine ⟨?_, ?_, ?_, ?_, ?_⟩
  · have hsub : (uniqueFirstIdx (rows.map keyRow)).Sublist
        (List.range (rows.map keyRow).length) := List.filter_sublist _
    have hmapped := hsub.map (fun i => rows.getD i [])
    rw [hkl, range_map_getD rows []] at hmapped
    exact hmapped
  · have hpw : (uniqueFirstIdx (rows.map keyRow)).Pairwise (· < ·) :=
      (List.pairwise_lt_range _).filter _
    have hpw2 : (uniqueFirstIdx (rows.map keyRow)).Pairwise
        (fun a b => keyRow (rows.getD a []) ≠ keyRow (rows.getD b [])) := by
      refine hpw.imp_of_mem ?_
      intro a b ha hb hab
      have hamem := mem_uniqueFirstIdx.mp ha
      have hbmem := mem_uniqueFirstIdx.mp hb
      have hane := hbmem.2 a hab
      rw [hkey a (by omega), hkey b (by omega)] at hane
      exact hane
    have : ((uniqueFirstIdx (rows.map keyRow)).map (fun i => rows.getD i [])).map keyRow =
        (uniqueFirstIdx (rows.map keyRow)).map (fun i => keyRow (rows.getD i [])) := by
      rw [List.map_map]
      rfl
    rw [dedup_rows, this]
    exact List.pairwise_map.mpr hpw2
  · intro r hr
    obtain ⟨i, hi, hri⟩ := List.getElem_of_mem hr
    have hgi : rows.getD i [] = r := by
      rw [List.getD_eq_getElem _ _ hi, hri]
    have hex : ∃ j, (rows.map keyRow).getD j [] = (rows.map keyRow).getD i [] := ⟨i, rfl⟩
    have hspec := Nat.find_spec hex
    have hle : Nat.find hex ≤ i := Nat.find_le rfl
    have hmem : Nat.find hex ∈ uniqueFirstIdx (rows.map keyRow) := by
      refine mem_uniqueFirstIdx.mpr ⟨by omega, ?_⟩
      intro k hk hkeq
      exact Nat.find_min hex hk (hkeq.trans hspec)
    refine ⟨rows.getD (Nat.find hex) [], List.mem_map_of_mem _ hmem, ?_⟩
    rw [← hkey _ (by omega), ← hgi, ← hkey i hi]
    exact hspec
  · intro i hi hfirst
    have hmem : i ∈ uniqueFirstIdx (rows.map keyRow) := by
      refine mem_uniqueFirstIdx.mpr ⟨by omega, ?_⟩
      intro j hj
      rw [hkey j (by omega), hkey i hi]
      exact hfirst j hj
    exact List.mem_map_of_mem _ hmem
  · intro s hs
    obtain ⟨i, himem, his⟩ := List.mem_map.mp hs
    have h := mem_uniqueFirstIdx.mp himem
    refine ⟨i, by omega, his, ?_⟩
    intro j hj
    have := h.2 j hj
    rw [hkey j (by omega), hkey i (by omega), his] at this
    exact this

/-- C2 witness: concrete evaluation. The first of two rows with equal sentinel
keys survives. -/
theorem C2_witness :
    [some 1, none] ∈ dedup_rows [[some 1, none], [some 1, some 0], [some 2, none]] := by
  have h := (C2_dedup_first_occurrence
    [[some 1, none], [some 1, some 0], [some 2, none]]).2.2.2.1
  simpa using h 0 (by decide) (by decide)

/-- Number of non-missing (non-NaN) entries of a stitch row
(np.sum over the negated isnan mask, stitch_neurons.py line 331). -/
def count_valid (r : List FVal) : ℕ := r.countP (fun v => v.isSome)

/-- The final filter of _run_stitching (stitch_neurons.py lines 330-332):
keep the rows whose non-missing count reaches min_recordings. -/
def filter_rows (minRecs : ℕ) (rows : List (List FVal)) : List (List FVal) :=
  rows.filter (fun r => decide (minRecs ≤ count_valid r))

/-- The deduplicated, filtered stitch table (stitch_neurons.py lines 323-332). -/
def stitch_table (minRecs : ℕ) (predictionList : List (List FVal)) : List (List FVal) :=
  filter_rows minRecs (dedup_rows predictionList)

/-- C3: every row of the final stitch table has at least min_recordings
non-missing entries; a deduplicated row below the bound is removed, and no
deduplicated row meeting the bound is removed. -/
theorem C3_min_recordings_filter (minRecs : ℕ) (rows : List (List FVal)) :
    (∀ r ∈ stitch_table minRecs rows, minRecs ≤ count_valid r) ∧
    (∀ r ∈ dedup_rows rows, minRecs ≤ count_valid r →
      r ∈ stitch_table minRecs rows) ∧
    (∀ r ∈ dedup_rows rows, count_valid r < minRecs →
      r ∉ stitch_table minRecs rows) := by
  refine ⟨?_, ?_, ?_⟩
  · intro r hr
    have := (List.mem_filter.mp hr).2
    simpa using this
  · intro r hr hle
    exact List.mem_filter.mpr ⟨hr, by simpa using hle⟩
  · intro r _ hlt hmem
    have := (List.mem_filter.mp hmem).2
    simp only [decide_eq_true_eq] at this
    omega

/-- C3 witness: a row with 2 valid entries survives a min_recordings = 2
filter of a concrete table. -/
theorem C3_witness :
    [some 1, some 2] ∈ stitch_table 2 [[some 1, some 2], [none, some 5]] :=
  (C3_min_recordings_filter 2 [[some 1, some 2], [none, some 5]]).2.1
    [some 1, some 2] (by decide) (by decide)

/-- Bin counts of np.histogram(xx, bins=T, range=(start, stop)) (psth.py
line 52): T uniform bins over [start, stop], half-open except the last bin,
which also includes the right edge. -/
def hist_counts (xx : List ℚ) (start stop : ℤ) (T : ℕ) : List ℚ :=
  (List.range T).map (fun (k : ℕ) =>
    let w : ℚ := ((stop : ℚ) - (start : ℚ)) / (T : ℚ)
    let lo := (start : ℚ) + (k : ℚ) * w
    if k + 1 = T then
      (xx.countP (fun x => decide (lo ≤ x) && decide (x ≤ (stop : ℚ))) : ℚ)
    else
      (xx.countP (fun x => decide (lo ≤ x) && decide (x < lo + w)) : ℚ))

/-- np.convolve in full mode (psth.py line 61): output length
len(a) + len(v) - 1, entry k is the sum of a[i] * v[k - i]. -/
def convolve (a v : List ℚ) : List ℚ :=
  (List.range (a.length + v.length - 1)).map (fun k =>
    ((List.range (k + 1)).map (fun i => a.getD i 0 * v.getD (k - i) 0)).sum)

/-- Embeds psth (psth.py lines 13-64). The parameter pdf models the external
scipy.stats.norm.pdf(x, 0, smoothing) evaluation; smoothing enters the code
itself only through the kernel half width int(3 * smoothing). The unused
max_rate parameter of the source is omitted. Returns the smoothed rate
vector and the trial count. -/
def psth (pdf : ℚ → ℚ) (spikeCell : List (List ℚ)) (bn : ℤ × ℤ) (smoothing : ℚ) :
    List ℚ × ℕ :=
  let nTr := spikeCell.length
  let T : ℕ := (bn.2 + 1 - bn.1).toNat
  if nTr = 0 then (List.replicate T 0, 0)
  else
    let xx := (spikeCell.filter (fun s => decide (0 < s.length))).flatten
    let z := hist_counts xx bn.1 bn.2 T
    let halfWidth := (⌊3 * smoothing⌋).toNat
    let window := (List.range (2 * halfWidth + 1)).map
      (fun (i : ℕ) => pdf ((i : ℚ) - (halfWidth : ℚ)))
    let rate := (((convolve z window).map
      (fun v => 1000 / (nTr : ℚ) * v)).drop halfWidth).take T
    (rate, nTr)

/-- C5: for every window with start <= stop and every nonnegative smoothing
width, the PSTH vector has length exactly stop - start + 1, and with zero
trials the result is the all-zero vector of that length with trial count 0.
(The nonnegativity hypothesis marks the domain on which the source code is
defined at all: a negative width makes np.convolve raise on an empty
kernel.) -/
theorem C5_psth_length_and_empty (pdf : ℚ → ℚ) (spikeCell : List (List ℚ))
    (start stop : ℤ) (smoothing : ℚ) (hwin : start ≤ stop) (hsm : 0 ≤ smoothing) :
    (psth pdf spikeCell (start, stop) smoothing).1.length = (stop - start + 1).toNat ∧
    (spikeCell = [] →
      psth pdf spikeCell (start, stop) smoothing =
        (List.replicate (stop - start + 1).toNat 0, 0)) := by
  have hT : (stop + 1 - start).toNat = (stop - start + 1).toNat := by omega
  have hconv : ∀ a v : List ℚ, (convolve a v).length = a.length + v.length - 1 := by
    intro a v
    simp [convolve]
  have hhist : ∀ (xx : List ℚ) (s e : ℤ) (T : ℕ), (hist_counts xx s e T).length = T := by
    intro xx s e T
    simp [hist_counts]
  constructor
  · by_cases h0 : spikeCell.length = 0
    · simp [psth, h0]
      omega
    · simp only [psth, if_neg h0]
      rw [List.length_take, List.length_drop, List.length_map, hconv, hhist,
        List.length_map, List.length_range]
      omega
  · intro h
    subst h
    simp [psth, hT]

/-- C5 witness: concrete evaluation on the empty trial list over the window
(-2, 1). -/
theorem C5_witness :
    (psth (fun _ => 1) [] (-2, 1) 1).1.length = ((1 : ℤ) - (-2) + 1).toNat ∧
    psth (fun _ => 1) [] (-2, 1) 1 = (List.replicate ((1 : ℤ) - (-2) + 1).toNat 0, 0) := by
  have h := C5_psth_length_and_empty (fun _ => 1) [] (-2) 1 1 (by decide) (by decide)
  exact ⟨h.1, h.2 rfl⟩

/-- The PSTH depends on the trial list only through its length and the
multiset of pooled spikes: it is invariant under permutation. -/
theorem psth_perm (pdf : ℚ → ℚ) (bn : ℤ × ℤ) (smoothing : ℚ)
    {a b : List (List ℚ)} (h : a.Perm b) :
    psth pdf a bn smoothing = psth pdf b bn smoothing := by
  have hlen := h.length_eq
  simp only [psth]
  rw [← hlen]
  by_cases h0 : a.length = 0
  · simp [h0]
  · simp only [if_neg h0]
    have hxx : ((a.filter fun s => decide (0 < s.length)).flatten).Perm
        ((b.filter fun s => decide (0 < s.length)).flatten) :=
      (h.filter _).flatten
    have hz : hist_counts ((a.filter fun s => decide (0 < s.length)).flatten)
          bn.1 bn.2 ((bn.2 + 1 - bn.1).toNat) =
        hist_counts ((b.filter fun s => decide (0 < s.length)).flatten)
          bn.1 bn.2 ((bn.2 + 1 - bn.1).toNat) := by
      simp only [hist_counts]
      apply List.map_congr_left
      intro k _
      split
      · exact congrArg Nat.cast (hxx.countP_eq _)
      · exact congrArg Nat.cast (hxx.countP_eq _)
    rw [hz]

/-- Comparison key of np.argsort on a possibly-NaN reaction-time array:
NaN sorts after every finite value. -/
def rt_le : FVal → FVal → Bool
  | none, none => true
  | none, some _ => false
  | some _, none => true
  | some a, some b => decide (a ≤ b)

/-- Embeds sort_spikes_by_rt (sorting_utils.py lines 12-36): an empty RT
array returns the spike cell unchanged; otherwise both arrays are permuted
by the argsort order of the reaction times. -/
def sort_spikes_by_rt (rt : List FVal) (spikeCell : List (List ℚ)) :
    List FVal × List (List ℚ) :=
  if rt.length = 0 then ([], spikeCell)
  else
    let idx := (List.range rt.length).mergeSort
      (fun i j => rt_le (rt.getD i none) (rt.getD j none))
    (idx.map (fun i => rt.getD i none), idx.map (fun i => spikeCell.getD i []))

/-- C10: the PSTH computed from the RT-sorted spike lists equals the PSTH of
the original spike lists, so the sorting performed by the stitcher before
psth never changes the firing-rate curve used for matching. -/
theorem C10_psth_rt_sort_invariant (pdf : ℚ → ℚ) (bn : ℤ × ℤ) (smoothing : ℚ)
    (rt : List FVal) (spikeCell : List (List ℚ)) (hlen : rt.length = spikeCell.length) :
    psth pdf (sort_spikes_by_rt rt spikeCell).2 bn smoothing =
      psth pdf spikeCell bn smoothing := by
  by_cases h0 : rt.length = 0
  · simp [sort_spikes_by_rt, h0]
  · have hperm : ((List.range rt.length).mergeSort
        (fun i j => rt_le (rt.getD i none) (rt.getD j none))).Perm
        (List.range rt.length) := List.mergeSort_perm _ _
    have h2 : ((sort_spikes_by_rt rt spikeCell).2).Perm spikeCell := by
      simp only [sort_spikes_by_rt, if_neg h0]
      have hmap := hperm.map (fun i => spikeCell.getD i [])
      nth_rewrite 2 [hlen] at hmap
      rw [range_map_getD spikeCell []] at hmap
      exact hmap
    exact psth_perm pdf bn smoothing h2

/-- C10 witness: concrete evaluation with two trials whose reaction times are
out of order. -/
theorem C10_witness :
    psth (fun _ => 1) ((sort_spikes_by_rt [some 2, some 1] [[1], [2]]).2) (0, 1) 1 =
      psth (fun _ => 1) [[1], [2]] (0, 1) 1 :=
  C10_psth_rt_sort_invariant (fun _ => 1) (0, 1) 1 [some 2, some 1] [[1], [2]] rfl

/-- Events dictionary of one recording: event-field name to the trial-indexed
timestamp array (entries possibly NaN). -/
abbrev Events := String → Option (List FVal)

/-- Neuropixel sampling rate (trial_spike.py line 21). -/
def FS : ℚ := 30000

/-- Local trial index (trial_spike.py line 163): a positive (MATLAB
1-indexed) subtrial becomes subtrial - 1, anything else becomes 0. -/
def event_idx (subtrial : ℤ) : ℕ := if 0 < subtrial then (subtrial - 1).toNat else 0

/-- Embeds _load_np_spike (trial_spike.py lines 128-187): spike times of one
cluster in a window around one trial event, reported in ms relative to the
event. npclu rows are (spike time in samples, cluster id). -/
def load_np_spike (npclu : List (ℚ × ℚ)) (events : Events) (subtrial : ℤ)
    (eventField : String) (bn : ℤ × ℤ) (clusterId : ℚ) : List ℚ :=
  if npclu.length = 0 then []
  else
    match events eventField with
    | none => []
    | some eventTimes =>
      if eventTimes.length ≤ event_idx subtrial then []
      else
        match eventTimes.getD (event_idx subtrial) none with
        | none => []
        | some t =>
          if t = 0 then []
          else
            let eventSample := t * FS / 1000
            let cluSpikes := (npclu.filter (fun p => decide (p.2 = clusterId))).map Prod.fst
            let startSample := eventSample + (bn.1 : ℚ) * FS / 1000
            let stopSample := eventSample + (bn.2 : ℚ) * FS / 1000
            (cluSpikes.filter
              (fun s => decide (startSample ≤ s) && decide (s ≤ stopSample))).map
              (fun s => (s - eventSample) * 1000 / FS)

/-- A trial as the extractor sees it: its source recording id and its local
(1-indexed) trial number. -/
structure TrialRef where
  recId : ℕ
  subtrial : ℤ

instance : Inhabited TrialRef := ⟨⟨0, 0⟩⟩

/-- Embeds trial_np_spike (trial_spike.py lines 24-88): results start as one
empty array per trial; for each recording of the day whose event table and
spike table both load, the trials of that recording are filled in by
_load_np_spike; recordings with a missing table are skipped, leaving their
trials empty. -/
def trial_np_spike (allRecs : List ℕ) (eventsFor : ℕ → Option Events)
    (npcluFor : ℕ → Option (List (ℚ × ℚ))) (trials : List TrialRef)
    (eventField : String) (bn : ℤ × ℤ) (clusterId : ℚ) : List (List ℚ) :=
  allRecs.foldl (fun res rec =>
    let idxs := (List.range trials.length).filter
      (fun i => decide ((trials.getD i default).recId = rec))
    if idxs.length = 0 then res
    else
      match eventsFor rec with
      | none => res
      | some events =>
        match npcluFor rec with
        | none => res
        | some npclu =>
          idxs.foldl (fun r i =>
            r.set i (load_np_spike npclu events (trials.getD i default).subtrial
              eventField bn clusterId)) res)
    (trials.map (fun _ => []))

/-- The per-trial failure condition of the claim: the event table or the
spike table of the trial's recording is unavailable, or the aligning event
timestamp at the trial's local index is missing (absent field or index out
of range), NaN, or exactly zero. -/
def trial_event_missing (eventsFor : ℕ → Option Events)
    (npcluFor : ℕ → Option (List (ℚ × ℚ))) (t : TrialRef) (eventField : String) : Prop :=
  eventsFor t.recId = none ∨ npcluFor t.recId = none ∨
  (∀ ev, eventsFor t.recId = some ev →
    (ev eventField = none ∨
     ∀ ts, ev eventField = some ts →
       ts.length ≤ event_idx t.subtrial ∨
       ts.getD (event_idx t.subtrial) none = none ∨
       ts.getD (event_idx t.subtrial) none = some 0))

theorem load_np_spike_empty (npclu : List (ℚ × ℚ)) (events : Events) (subtrial : ℤ)
    (eventField : String) (bn : ℤ × ℤ) (clusterId : ℚ)
    (h : events eventField = none ∨
      ∀ ts, events eventField = some ts →
        ts.length ≤ event_idx subtrial ∨
        ts.getD (event_idx subtrial) none = none ∨
        ts.getD (event_idx subtrial) none = some 0) :
    load_np_spike npclu events subtrial eventField bn clusterId = [] := by
  unfold load_np_spike
  split
  · rfl
  · rcases hev : events eventField with _ | ts
    · simp
    · rcases h with h | h
      · rw [hev] at h
        cases h
      · rcases h ts hev with hlen | hnan | hzero
      
        · simp [hlen]
        · by_cases hl : ts.length ≤ event_idx subtrial
          · simp [hl]
          · rw [List.getD_eq_getElem?_getD] at hnan
            simp [hl, hnan]
        · by_cases hl : ts.length ≤ event_idx subtrial
          · simp [hl]
          · rw [List.getD_eq_getElem?_getD] at hzero
            simp [hl, hzero]

theorem foldl_set_getD_empty (f : ℕ → List ℚ) (i : ℕ) :
    ∀ (idxs : List ℕ) (res : List (List ℚ)), res.getD i [] = [] → (i ∈ idxs → f i = []) →
      (idxs.foldl (fun r j => r.set j (f j)) res).getD i [] = []
  | [], _, hres, _ => hres
  | j :: js, res, hres, hf => by
    simp only [List.foldl_cons]
    apply foldl_set_getD_empty f i js
    · by_cases hji : j = i
      · subst hji
        have hfj : f j = [] := hf (by simp)
        rw [List.getD_eq_getElem?_getD, List.getElem?_set]
        split
        · split <;> simp [hfj]
        · rw [← List.getD_eq_getElem?_getD]
          exact hres
      · rw [List.getD_eq_getElem?_getD, List.getElem?_set, if_neg hji,
          ← List.getD_eq_getElem?_getD]
        exact hres
    · intro hmem
      exact hf (by simp [hmem])

/-- C6: for every trial, if the event table or spike table of its recording is
unavailable, or the aligning event timestamp at its local index is missing,
NaN, or exactly zero, then that trial's result is the empty spike array (and
no error can be raised: the embedding is total). -/
theorem C6_missing_data_empty_trial (allRecs : List ℕ) (eventsFor : ℕ → Option Events)
    (npcluFor : ℕ → Option (List (ℚ × ℚ))) (trials : List TrialRef)
    (eventField : String) (bn : ℤ × ℤ) (clusterId : ℚ) (i : ℕ)
    (hbad : trial_event_missing eventsFor npcluFor (trials.getD i default) eventField) :
    (trial_np_spike allRecs eventsFor npcluFor trials eventField bn clusterId).getD i []
      = [] := by
  have Hwrite : ∀ ev np, eventsFor (trials.getD i default).recId = some ev →
      npcluFor (trials.getD i default).recId = some np →
      load_np_spike np ev (trials.getD i default).subtrial eventField bn clusterId = [] := by
    intro ev np hev hnp
    rcases hbad with h | h | h
    · rw [hev] at h
      cases h
    · rw [hnp] at h
      cases h
    · exact load_np_spike_empty np ev _ eventField bn clusterId (h ev hev)
  have hinit : (trials.map (fun _ => ([] : List ℚ))).getD i [] = [] := by
    rcases lt_or_ge i trials.length with hlt | hge
    · rw [getD_map_of_lt (fun _ => ([] : List ℚ)) default [] trials i hlt]
    · rw [List.getD_eq_getElem?_getD, List.getElem?_eq_none (by simpa using hge)]
      rfl
  unfold trial_np_spike
  generalize (trials.map (fun _ => ([] : List ℚ))) = res at hinit ⊢
  induction allRecs generalizing res with
  | nil => simpa using hinit
  | cons rec rest ih =>
    simp only [List.foldl_cons]
    apply ih
    dsimp only
    split
    · exact hinit
    · split
      · exact hinit
      · rename_i events hev
        split
        · exact hinit
        · rename_i npclu hnp
          refine foldl_set_getD_empty _ i _ res hinit ?_
          intro hmem
          have hflt := List.mem_filter.mp hmem
          have hrec : (trials.getD i default).recId = rec := by
            simpa using hflt.2
          exact Hwrite events npclu (hrec ▸ hev) (hrec ▸ hnp)

/-- C6 witness: concrete evaluation with a recording whose event table is
unavailable. -/
theorem C6_witness :
    (trial_np_spike [0] (fun _ => none) (fun _ => none) [⟨0, 1⟩]
      ("E") (-300, 500) 1).getD 0 [] = [] :=
  C6_missing_data_empty_trial [0] (fun _ => none) (fun _ => none) [⟨0, 1⟩]
    ("E") (-300, 500) 1 0 (Or.inl rfl)

/-- Task type configuration (task_types.py lines 12-38). Optional fields model
the Python None default; the empty string is falsy where the code tests
truthiness. The time window is carried but opaque here, since the extraction
call itself is a parameter below. -/
structure TaskTypeConfig where
  primaryEvent : String
  fallbackEvent : Option String
  timeWindow : ℤ × ℤ
  rtEvent : String
  rtBaseline : String
  rtFallbackEvent : Option String
  rtFallbackBaseline : Option String

/-- A behavioral trial as _compute_rt sees it: named event fields, absent
fields give `none`. -/
structure TrialFields where
  fields : String → Option ℚ

/-- Python expression a or b on an optional string (extract_rasters.py lines
194-195): None and the empty string fall through to b. -/
def str_or (a : Option String) (b : String) : String :=
  match a with
  | none => b
  | some s => if s = "" then b else s

/-- Embeds _compute_rt (extract_rasters.py lines 204-216): an empty field
name yields the empty list; otherwise one reaction time (event minus
baseline) per trial, NaN when either field is absent on that trial. -/
def compute_rt (trials : List TrialFields) (eventField baselineField : String) :
    List FVal :=
  if eventField = "" ∨ baselineField = "" then []
  else trials.map (fun t =>
    match t.fields eventField, t.fields baselineField with
    | some e, some b => some (e - b)
    | _, _ => none)

/-- Embeds _extract_task_rasters (extract_rasters.py lines 169-201). The
parameter tryExtract models one trial_np_spike call with a given alignment
event, which in Python may raise (Except.error); _compute_rt is pure. In the
source the fallback call sits outside any try block, so its error
propagates; with no (truthy) fallback the except arm returns empty spike
lists and an empty reaction-time list. -/
def extract_task_rasters {E : Type} (tryExtract : String → Except E (List (List ℚ)))
    (taskCfg : TaskTypeConfig) (trials : List TrialFields) :
    Except E (List (List ℚ) × List FVal) :=
  match tryExtract taskCfg.primaryEvent with
  | Except.ok spikes =>
    Except.ok (spikes, compute_rt trials taskCfg.rtEvent taskCfg.rtBaseline)
  | Except.error _ =>
    match taskCfg.fallbackEvent with
    | some fb =>
      if fb = "" then Except.ok (trials.map (fun _ => []), [])
      else
        match tryExtract fb with
        | Except.ok spikes =>
          Except.ok (spikes,
            compute_rt trials (str_or taskCfg.rtFallbackEvent taskCfg.rtEvent)
              (str_or taskCfg.rtFallbackBaseline taskCfg.rtBaseline))
        | Except.error e => Except.error e
    | none => Except.ok (trials.map (fun _ => []), [])

/-- C7 counterexample: with one trial and a fallback event configured, an
extraction that fails on both the primary and the fallback event makes
_extract_task_rasters propagate the error, instead of returning the empty
spike list and per-trial NaN reaction time the claim asserts. -/
theorem C7_counterexample :
    extract_task_rasters (fun _ => (Except.error () : Except Unit (List (List ℚ))))
      ⟨"P", some ("F"), (0, 0), "E", "B", none, none⟩ [⟨fun _ => none⟩] =
      Except.error () := rfl

/-- C7 (amended): if the primary extraction raises, the fallback event and
fallback reaction-time fields are used for a retry whose own failure
propagates as an error; when no truthy fallback event exists, the task
contributes an empty spike list per trial and an empty (not per-trial NaN)
reaction-time list. -/
theorem C7_amended_fallback_policy {E : Type}
    (tryExtract : String → Except E (List (List ℚ)))
    (taskCfg : TaskTypeConfig) (trials : List TrialFields) :
    (∀ spikes, tryExtract taskCfg.primaryEvent = Except.ok spikes →
      extract_task_rasters tryExtract taskCfg trials =
        Except.ok (spikes, compute_rt trials taskCfg.rtEvent taskCfg.rtBaseline)) ∧
    (∀ e fb, tryExtract taskCfg.primaryEvent = Except.error e →
      taskCfg.fallbackEvent = some fb → fb ≠ "" →
      extract_task_rasters tryExtract taskCfg trials =
        (tryExtract fb).map (fun spikes => (spikes,
          compute_rt trials (str_or taskCfg.rtFallbackEvent taskCfg.rtEvent)
            (str_or taskCfg.rtFallbackBaseline taskCfg.rtBaseline)))) ∧
    (∀ e, tryExtract taskCfg.primaryEvent = Except.error e →
      (taskCfg.fallbackEvent = none ∨ taskCfg.fallbackEvent = some "") →
      extract_task_rasters tryExtract taskCfg trials =
        Except.ok (trials.map (fun _ => []), [])) := by
  refine ⟨?_, ?_, ?_⟩
  · intro spikes hok
    simp [extract_task_rasters, hok]
  · intro e fb herr hfb hne
    simp only [extract_task_rasters, herr, hfb, if_neg hne]
    rcases htf : tryExtract fb with e2 | spikes <;> simp [htf, Except.map]
  · intro e herr hfb
    rcases hfb with hfb | hfb <;> simp [extract_task_rasters, herr, hfb]

/-- C7 witness: concrete evaluation of the no-fallback arm. -/
theorem C7_witness :
    extract_task_rasters (fun _ => (Except.error () : Except Unit (List (List ℚ))))
      ⟨"P", none, (0, 0), "E", "B", none, none⟩ [⟨fun _ => none⟩] =
      Except.ok ([[]], []) := by
  have h := (C7_amended_fallback_policy
    (fun _ => (Except.error () : Except Unit (List (List ℚ))))
    ⟨"P", none, (0, 0), "E", "B", none, none⟩ [⟨fun _ => none⟩]).2.2 () rfl (Or.inl rfl)
  simpa using h

/-- Per-channel waveform energy (channel_info.py lines 202-205): for channel c
of the local subset tmp_ind, the sum over time of the squared template
samples at that channel. -/
def ptp_energy (tempRows : List (List ℚ)) (tmpInd : List ℕ) : List ℚ :=
  (List.range tmpInd.length).map (fun c =>
    (tempRows.map (fun row => (row.getD (tmpInd.getD c 0) 0) ^ 2)).sum)

/-- Per-channel PC-feature coverage ratios (channel_info.py lines 208-215):
one minus the fraction of spikes whose first three PC values at the channel
are all zero; channels beyond the feature array's channel dimension keep
ratio 0, and a missing feature array gives all zeros. -/
def non_zeros_pc_ratios (nLocal : ℕ) (pcFeat : Option (List (List (List ℚ))))
    (pcChanDim : ℕ) : List ℚ :=
  match pcFeat with
  | none => List.replicate nLocal 0
  | some rows =>
    (List.range nLocal).map (fun ch =>
      if ch < min nLocal pcChanDim then
        1 - ((rows.countP (fun spike =>
          (spike.take 3).all (fun pcRow => decide (pcRow.getD ch 0 = 0)))) : ℚ) /
          (rows.length : ℚ)
      else 0)

/-- np.argmax over a plain rational array, first-occurrence semantics. -/
def np_argmax_q : List ℚ → ℕ
  | [] => 0
  | [_] => 0
  | x :: y :: xs =>
    let i := np_argmax_q (y :: xs)
    if x < (y :: xs).getD i 0 then i + 1 else 0

/-- np.argmin over a plain rational array, first-occurrence semantics. -/
def np_argmin_q : List ℚ → ℕ
  | [] => 0
  | [_] => 0
  | x :: y :: xs =>
    let i := np_argmin_q (y :: xs)
    if (y :: xs).getD i 0 < x then i + 1 else 0

/-- Normalization guard (channel_info.py lines 218-221): the maximum of the
array if positive, else 1. -/
def norm_guard (l : List ℚ) : ℚ :=
  let m := l.maximum.unbot' 0
  if 0 < m then m else 1

/-- Embeds the per-cluster body of clus_channel_info (channel_info.py lines
194-243): the sentinel (0, 0) for a cluster with no spikes, otherwise the
energy/coverage scoring with the coverage-gated best channel and the
coverage-and-energy-gated worst channel, both reported through tmp_ind. -/
def clus_channel_info_one (nSpikes : ℕ) (tmpInd : List ℕ) (tempRows : List (List ℚ))
    (pcFeat : Option (List (List (List ℚ)))) (pcChanDim : ℕ) : ℕ × ℕ :=
  if nSpikes = 0 then (0, 0)
  else
    let ptp := ptp_energy tempRows tmpInd
    let nzr := non_zeros_pc_ratios tmpInd.length pcFeat pcChanDim
    let maxE := norm_guard ptp
    let ptpNorm := ptp.map (fun v => v / maxE)
    let maxN := norm_guard nzr
    let nzrNorm := nzr.map (fun v => v / maxN)
    let alpha : ℚ := 1
    let combined := (List.range tmpInd.length).map
      (fun c => alpha * ptpNorm.getD c 0 + (1 - alpha) * nzrNorm.getD c 0)
    let best0 := np_argmax_q combined
    let best :=
      if nzr.getD best0 0 < 1/2 then
        let eligible := (List.range tmpInd.length).filter
          (fun c => decide (1/2 ≤ nzr.getD c 0))
        if eligible.length = 0 then best0
        else eligible.getD (np_argmax_q (eligible.map (fun c => combined.getD c 0))) 0
      else best0
    let worst0 := np_argmin_q ptp
    let worst :=
      if nzr.getD worst0 0 < 1/10 then
        let eligible := (List.range tmpInd.length).filter
          (fun c => decide (1/10 ≤ nzr.getD c 0) && decide (0 < ptp.getD c 0))
        if eligible.length = 0 then worst0
        else eligible.getD (np_argmin_q (eligible.map (fun c => ptp.getD c 0))) 0
      else worst0
    (tmpInd.getD best 0, tmpInd.getD worst 0)

/-- C8: a unit with zero recorded spikes gets the sentinel channel pair
(0, 0) for (best, worst); the energy and coverage scoring is skipped, as the
result is independent of the template, feature and channel-subset data. -/
theorem C8_zero_spikes_sentinel (tmpInd : List ℕ) (tempRows : List (List ℚ))
    (pcFeat : Option (List (List (List ℚ)))) (pcChanDim : ℕ) :
    clus_channel_info_one 0 tmpInd tempRows pcFeat pcChanDim = (0, 0) := rfl

/-- Stitcher-relevant configuration state (config.py lines 24-32 and 57-66):
whether data_root exists, and the stitching parameters. -/
structure StitchingConfig where
  dataRootExists : Bool
  frCorrThreshold : ℚ
  wfCorrThreshold : ℚ
  minRecordings : ℕ
  channelRange : ℕ

/-- MindSnagConfig.validate (config.py lines 100-106): only the existence of
data_root is checked; no threshold is validated anywhere. -/
def validate (cfg : StitchingConfig) : Except String Unit :=
  if cfg.dataRootExists then Except.ok () else Except.error ("data_root not found")

/-- Cluster tables of one recording as _load_cluster_info reads them:
rows are (cluster id, channel index); the isolated table may be absent. -/
structure RecCluInfo where
  cluInfo : List (ℚ × ℕ)
  ksCluInfo : List (ℚ × ℕ)
  isoCluInfo : Option (List (ℚ × ℕ))

/-- Cluster-type selection of _load_cluster_info for one recording
(stitch_neurons.py lines 131-144). -/
def select_cluster_info (clusterType : String) (r : RecCluInfo) :
    Except String (List (ℚ × ℕ)) :=
  if clusterType = "All" then Except.ok r.cluInfo
  else if clusterType = "Good" then Except.ok r.ksCluInfo
  else if clusterType = "Isolated" then
    match r.isoCluInfo with
    | none => Except.error ("IsoClu_info not found")
    | some info => Except.ok info
  else Except.error ("cluster_type must be All, Good, or Isolated")

/-- The per-recording loop of _load_cluster_info (stitch_neurons.py lines
101-146): the first failing recording aborts the load. -/
def load_cluster_info (clusterType : String) :
    List RecCluInfo → Except String (List (List (ℚ × ℕ)))
  | [] => Except.ok []
  | r :: rs => do
    let info ← select_cluster_info clusterType r
    let rest ← load_cluster_info clusterType rs
    Except.ok (info :: rest)

/-- NeuronStitcher.run (stitch_neurons.py lines 82-99): validate the
configuration, load the per-recording cluster info (where an invalid
cluster-type selection raises), then run the stitching loop and its
postprocessing. The parameter predict models the file-backed prediction loop
(lines 256-321) that emits the raw row list from the selected cluster info;
the configuration (thresholds included) is passed through to it unchecked. -/
def stitcher_run (predict : StitchingConfig → List (List (ℚ × ℕ)) → List (List FVal))
    (cfg : StitchingConfig) (clusterType : String) (recs : List RecCluInfo) :
    Except String (List (List FVal)) := do
  validate cfg
  let infos ← load_cluster_info clusterType recs
  Except.ok (stitch_table cfg.minRecordings (predict cfg infos))

/-- C9 counterexample: with fr_corr_threshold = 2 and wf_corr_threshold = -1,
both outside [0, 1], and a valid cluster type, the run proceeds and returns a
result instead of raising the immediate fatal error the claim asserts. -/
theorem C9_counterexample :
    stitcher_run (fun _ _ => []) ⟨true, 2, -1, 2, 10⟩ ("All") [⟨[], [], none⟩] =
      Except.ok [] := rfl

/-- C9 (amended): configuration errors that are actually checked are fatal
before any row is produced: a missing data_root fails validate, and a
cluster-type filter other than All, Good, or Isolated fails the cluster-info
load (when at least one recording is processed). The correlation thresholds,
however, are not validated anywhere: with any thresholds whatsoever, even
outside [0, 1], a run whose cluster-info load succeeds proceeds to the
stitch table. -/
theorem C9_amended_config_errors
    (predict : StitchingConfig → List (List (ℚ × ℕ)) → List (List FVal))
    (cfg : StitchingConfig) (clusterType : String) (recs : List RecCluInfo) :
    (cfg.dataRootExists = true → clusterType ≠ "All" → clusterType ≠ "Good" →
      clusterType ≠ "Isolated" → recs ≠ [] →
      stitcher_run predict cfg clusterType recs =
        Except.error ("cluster_type must be All, Good, or Isolated")) ∧
    (cfg.dataRootExists = false →
      stitcher_run predict cfg clusterType recs =
        Except.error ("data_root not found")) ∧
    (∀ infos, cfg.dataRootExists = true →
      load_cluster_info clusterType recs = Except.ok infos →
      stitcher_run predict cfg clusterType recs =
        Except.ok (stitch_table cfg.minRecordings (predict cfg infos))) := by
  refine ⟨?_, ?_, ?_⟩
  · intro hroot h1 h2 h3 hne
    rcases recs with _ | ⟨r, rs⟩
    · exact absurd rfl hne
    · have hsel : select_cluster_info clusterType r =
          Except.error ("cluster_type must be All, Good, or Isolated") := by
        simp [select_cluster_info, h1, h2, h3]
      simp only [stitcher_run, validate, hroot, load_cluster_info, hsel]
      rfl
  · intro hroot
    simp only [stitcher_run, validate, hroot]
    rfl
  · intro infos hroot hload
    simp only [stitcher_run, validate, hroot, hload]
    rfl

/-- C9 witness: concrete evaluation of the invalid cluster-type arm. -/
theorem C9_witness :
    stitcher_run (fun _ _ => []) ⟨true, 5, 5, 2, 10⟩ ("Bad") [⟨[], [], none⟩] =
      Except.error ("cluster_type must be All, Good, or Isolated") :=
  (C9_amended_config_errors (fun _ _ => []) ⟨true, 5, 5, 2, 10⟩ ("Bad")
    [⟨[], [], none⟩]).1 rfl (by decide) (by decide) (by decide)
    (List.cons_ne_nil _ _)
